import Mathlib

/-!
Shallow embedding of the LMS library-synchronization engine
(`src/database-updater/DatabaseUpdater.cpp`) and verification of the
frozen claims about it.

Paths and strings are modelled as `List Char`.  The filesystem and the
metadata extractor are modelled as explicit environments (the code only
observes them through `boost::filesystem::exists / is_regular /
last_write_time`, the cover grabber and `MetaData::Parser::parse`).
-/

namespace LmsUpdater

/-- Paths (`boost::filesystem::path`) are modelled by their string form. -/
abbrev Path := List Char

/-- `haystack.find(needle) != std::string::npos`: does `needle` occur as a
contiguous substring of `haystack`?  (`std::string::find` of an empty needle
returns 0, i.e. a hit.) -/
def occursIn (needle : Path) : Path → Bool
  | [] => needle.isPrefixOf []
  | c :: t => needle.isPrefixOf (c :: t) || occursIn needle t

/-- The filename component of a path: the characters after the last `/`
(`boost::filesystem::path::filename`). -/
def filenameOf (p : Path) : Path :=
  ((p.reverse.takeWhile (fun c => c ≠ '/')).reverse)

/-- Helper for `extensionOf`: scans the REVERSED filename from its front
(i.e. the original filename from its end); on the first dot met it returns
the dot, and the characters passed over are re-appended, so the result is
the suffix of the original filename starting at its last dot. -/
def extFromRev : List Char → Option (List Char)
  | [] => none
  | c :: rest =>
    if c = '.' then some ['.']
    else
      match extFromRev rest with
      | none => none
      | some e => some (e ++ [c])

/-- `boost::filesystem::path::extension()`: the substring of the filename
beginning at its last dot, or empty when the filename has no dot or is
`.` or `..`. -/
def extensionOf (p : Path) : Path :=
  let f := filenameOf p
  if f = ['.'] ∨ f = ['.', '.'] then []
  else
    match extFromRev f.reverse with
    | none => []
    | some e => e

/-- `isFileSupported` (DatabaseUpdater.cpp:70-83): the file's extension is
compared for equality against each configured extension pattern. -/
def isFileSupported (file : Path) (extensions : List Path) : Bool :=
  let fileExtension := extensionOf file
  extensions.any (fun extension => extension == fileExtension)

/-- `Updater::setAudioExtensions` (DatabaseUpdater.cpp:114-119): each
configured extension string is stored with `"." + extension` prepended. -/
def setAudioExtensions (extensions : List (List Char)) : List Path :=
  extensions.map (fun extension => '.' :: extension)

/-- `Updater::setVideoExtensions` (DatabaseUpdater.cpp:121-126): identical
treatment for the video extension list. -/
def setVideoExtensions (extensions : List (List Char)) : List Path :=
  extensions.map (fun extension => '.' :: extension)

/-- The filesystem as the sweeper observes it: `boost::filesystem::exists`
and `boost::filesystem::is_regular`. -/
structure FileSys where
  fsExists : Path → Bool
  isRegular : Path → Bool

/-- `Updater::checkFile` (DatabaseUpdater.cpp:588-626): a catalog row's
path passes iff the file exists, is a regular file, some configured root
directory's string occurs in the path string (`p.string().find(rootDir.string())
!= npos`), and the extension is supported. -/
def checkFile (fs : FileSys) (p : Path) (rootDirs : List Path)
    (extensions : List Path) : Bool :=
  if ¬ (fs.fsExists p = true ∧ fs.isRegular p = true) then
    false
  else
    let foundRoot := rootDirs.any (fun rootDir => occursIn rootDir p)
    if ¬ (foundRoot = true) then
      false
    else if ¬ (isFileSupported p extensions = true) then
      false
    else
      true

/-- Per-pass counters (`Stats`; declared in the updater's header, used as
`stats.nbAdded++` etc. throughout DatabaseUpdater.cpp). -/
structure Stats where
  nbAdded : Nat
  nbModified : Nat
  nbRemoved : Nat
  deriving DecidableEq, Repr

/-- Modelled from the spec: `Stats::nbChanges` (the header declaring `Stats`
is not part of the sources; the spec describes Stats as "counts of
added/modified/removed rows" and the completion rule as
`added + modified + removed > 0`). -/
def Stats.nbChanges (s : Stats) : Nat :=
  s.nbAdded + s.nbModified + s.nbRemoved

/-- `Database::Track::CoverType` (`None | Embedded | ExternalFile`). -/
inductive CoverType where
  | noCover
  | embedded
  | externalFile
  deriving DecidableEq, Repr

/-- A Track catalog row, with the attributes DatabaseUpdater.cpp writes
(`setArtist`, `setRelease`, `setLastWriteTime`, `setName`, `setDuration`,
both `setGenres` overloads, `setTrackNumber`, `setDiscNumber`, `setDate`,
`setOriginalDate`, `setCoverType`).  Durations are in seconds
(`total_seconds`), timestamps are opaque numbers. -/
structure Track where
  path : Path
  name : List Char
  duration : Int
  lastWriteTime : Nat
  coverType : CoverType
  artistId : Nat
  releaseId : Nat
  genreListStr : List Char
  genres : List (List Char)
  trackNumber : Option Nat
  discNumber : Option Nat
  date : Option Int
  originalDate : Option Int
  deriving DecidableEq, Repr

/-- A Video catalog row (`setName`, `setDuration`, `setLastWriteTime`). -/
structure Video where
  path : Path
  name : List Char
  duration : Int
  lastWriteTime : Nat
  deriving DecidableEq, Repr

/-- An Artist row: display name and MusicBrainz id (empty string = no id,
mirroring `getMBID().empty()`); `id` is the database row id. -/
structure Artist where
  id : Nat
  name : List Char
  mbid : List Char
  deriving DecidableEq, Repr

/-- A Release row, same shape as Artist. -/
structure Release where
  id : Nat
  name : List Char
  mbid : List Char
  deriving DecidableEq, Repr

/-- The catalog (one `Wt::Dbo::Session`): row lists in insertion order plus
fresh-id counters for rows created by this engine.  Genre rows carry only
their name. -/
structure Session where
  tracks : List Track
  videos : List Video
  artists : List Artist
  releases : List Release
  genreRows : List (List Char)
  nextArtistId : Nat
  nextReleaseId : Nat
  deriving DecidableEq, Repr

/-- `Track::getByPath`: the row whose path equals the file's path. -/
def Track.getByPath (s : Session) (file : Path) : Option Track :=
  s.tracks.find? (fun t => t.path == file)

/-- `Video::getByPath`. -/
def Video.getByPath (s : Session) (file : Path) : Option Video :=
  s.videos.find? (fun v => v.path == file)

/-- `track.remove()` on the row found at `file` (the first row with that
path is erased). -/
def removeTrack (s : Session) (file : Path) : Session :=
  { s with tracks := s.tracks.eraseP (fun t => t.path == file) }

/-- `video.remove()` on the row found at `file`. -/
def removeVideo (s : Session) (file : Path) : Session :=
  { s with videos := s.videos.eraseP (fun v => v.path == file) }

/-- The loop body of `Updater::checkAudioFiles` (DatabaseUpdater.cpp:629-668)
over the track list: every row failing `checkFile` is removed and counted
in `stats.nbRemoved`. -/
def sweepTracks (fs : FileSys) (rootDirs : List Path) (extensions : List Path) :
    List Track → Stats → List Track × Stats
  | [], stats => ([], stats)
  | t :: ts, stats =>
    if checkFile fs t.path rootDirs extensions then
      let (ts', stats') := sweepTracks fs rootDirs extensions ts stats
      (t :: ts', stats')
    else
      sweepTracks fs rootDirs extensions ts
        { stats with nbRemoved := stats.nbRemoved + 1 }

/-- `Updater::checkAudioFiles`: sweep the Track table against the audio
roots and audio extensions. -/
def checkAudioFiles (fs : FileSys) (audioRootDirs : List Path)
    (audioExtensions : List Path) (s : Session) (stats : Stats) :
    Session × Stats :=
  let (tracks', stats') := sweepTracks fs audioRootDirs audioExtensions s.tracks stats
  ({ s with tracks := tracks' }, stats')

/-- The loop body of `Updater::checkVideoFiles` (DatabaseUpdater.cpp:670-694)
over the video list. -/
def sweepVideos (fs : FileSys) (rootDirs : List Path) (extensions : List Path) :
    List Video → Stats → List Video × Stats
  | [], stats => ([], stats)
  | v :: vs, stats =>
    if checkFile fs v.path rootDirs extensions then
      let (vs', stats') := sweepVideos fs rootDirs extensions vs stats
      (v :: vs', stats')
    else
      sweepVideos fs rootDirs extensions vs
        { stats with nbRemoved := stats.nbRemoved + 1 }

/-- `Updater::checkVideoFiles`: sweep the Video table against the video
roots and video extensions. -/
def checkVideoFiles (fs : FileSys) (videoRootDirs : List Path)
    (videoExtensions : List Path) (s : Session) (stats : Stats) :
    Session × Stats :=
  let (videos', stats') := sweepVideos fs videoRootDirs videoExtensions s.videos stats
  ({ s with videos := videos' }, stats')

/-!  Scheduler.  Dates are modelled as day indices (`boost::gregorian::date`
arithmetic is an iterator over consecutive days); the encoding is chosen so
that `day_of_week` is the index modulo 7, with `1` = Monday exactly as in
boost (`0` = Sunday .. `6` = Saturday).  Times of day are in seconds. -/

/-- The bounded search loop of `getNextMonday`: starting at `d`, advance one
day at a time until `day_of_week == 1`.  The loop of the source advances at
most 7 times; the fuel makes that explicit. -/
def nextMondayAux : Nat → Nat → Nat
  | 0, d => d
  | fuel + 1, d => if d % 7 = 1 then d else nextMondayAux fuel (d + 1)

/-- `getNextMonday` (DatabaseUpdater.cpp:43-54): `++it`, then keep advancing
while the day of week is not Monday. -/
def getNextMonday (current : Nat) : Nat :=
  nextMondayAux 7 (current + 1)

/-- `getNextDay` (DatabaseUpdater.cpp:36-41). -/
def getNextDay (current : Nat) : Nat :=
  current + 1

/-- The current wall-clock instant as `processNextJob` reads it:
`now.date()` (a day index) and `now.time_of_day()` (seconds). -/
structure NowTime where
  date : Nat
  timeOfDay : Nat
  deriving DecidableEq, Repr

/-- The `Weekly` case of the `switch` in `Updater::processNextJob`
(DatabaseUpdater.cpp:179-184): fire today when the time of day is before
the configured start time and today is Monday (`day_of_week() == 1`),
otherwise on `getNextMonday`. -/
def weeklyNextScanDate (now : NowTime) (startTime : Nat) : Nat :=
  if now.timeOfDay < startTime ∧ now.date % 7 = 1 then now.date
  else getNextMonday now.date

/-- The `Daily` case of the same `switch` (DatabaseUpdater.cpp:173-178). -/
def dailyNextScanDate (now : NowTime) (startTime : Nat) : Nat :=
  if now.timeOfDay < startTime then now.date
  else getNextDay now.date

/-- The media-directory settings fields that the engine writes back
(`MediaDirectorySettings`): the pending manual-scan flag, the last
completed scan instant and the last catalog-modifying instant. -/
structure Settings where
  manualScanRequested : Bool
  lastScan : Option Nat
  lastUpdate : Option Nat
  deriving DecidableEq, Repr

/-- The bookkeeping transaction at the end of `Updater::process`
(DatabaseUpdater.cpp:239-257): `setLastUpdate(now)` when the pass counted
changes, `setLastScan(now)` only while `_running` still holds (i.e. the
pass was not stopped), and the manual-scan flag is cleared only when it was
set and the pass completed. -/
def processScanBookkeeping (running : Bool) (stats : Stats) (now : Nat)
    (s : Settings) : Settings :=
  let s1 := if stats.nbChanges > 0 then { s with lastUpdate := some now } else s
  let s2 := if running then { s1 with lastScan := some now } else s1
  let s3 :=
    if s.manualScanRequested = true ∧ running = true then
      { s2 with manualScanRequested := false }
    else s2
  s3

/-!  Entity resolution (`Updater::getArtist`, `Updater::getRelease`,
`Updater::getGenres`). -/

/-- `Artist::getByMBID`: the first artist row carrying this MusicBrainz id. -/
def Artist.getByMBID (s : Session) (mbid : List Char) : Option Artist :=
  s.artists.find? (fun a => a.mbid == mbid)

/-- `Artist::getByName`: the artist rows with this exact name, in row order. -/
def Artist.getByName (s : Session) (name : List Char) : List Artist :=
  s.artists.filter (fun a => a.name == name)

/-- `Artist::create`: append a fresh artist row. -/
def Artist.create (s : Session) (name mbid : List Char) : Artist × Session :=
  let a : Artist := { id := s.nextArtistId, name := name, mbid := mbid }
  (a, { s with artists := s.artists ++ [a], nextArtistId := s.nextArtistId + 1 })

/-- Modelled from the spec: `Artist::getNone` (not among the sources) —
the lazily created sentinel "unknown artist" singleton, a row with empty
name and no id. -/
def Artist.getNone (s : Session) : Artist × Session :=
  match s.artists.find? (fun a => a.name == ([] : List Char) && a.mbid == ([] : List Char)) with
  | some a => (a, s)
  | none => Artist.create s [] []

/-- `Updater::getArtist` (DatabaseUpdater.cpp:264-299): by MBID when one is
present (create on miss); otherwise the first same-named artist without an
MBID (create on miss); otherwise the sentinel. -/
def getArtist (s : Session) (name mbid : List Char) : Artist × Session :=
  if mbid ≠ [] then
    match Artist.getByMBID s mbid with
    | some artist => (artist, s)
    | none => Artist.create s name mbid
  else if name ≠ [] then
    match (Artist.getByName s name).find? (fun a => a.mbid == ([] : List Char)) with
    | some artist => (artist, s)
    | none => Artist.create s name []
  else
    Artist.getNone s

/-- `Release::getByMBID`. -/
def Release.getByMBID (s : Session) (mbid : List Char) : Option Release :=
  s.releases.find? (fun r => r.mbid == mbid)

/-- `Release::getByName`. -/
def Release.getByName (s : Session) (name : List Char) : List Release :=
  s.releases.filter (fun r => r.name == name)

/-- `Release::create`. -/
def Release.create (s : Session) (name mbid : List Char) : Release × Session :=
  let r : Release := { id := s.nextReleaseId, name := name, mbid := mbid }
  (r, { s with releases := s.releases ++ [r], nextReleaseId := s.nextReleaseId + 1 })

/-- Modelled from the spec: `Release::getNone` (not among the sources) —
the sentinel "unknown release" singleton. -/
def Release.getNone (s : Session) : Release × Session :=
  match s.releases.find? (fun r => r.name == ([] : List Char) && r.mbid == ([] : List Char)) with
  | some r => (r, s)
  | none => Release.create s [] []

/-- `Updater::getRelease` (DatabaseUpdater.cpp:301-336): same algorithm as
`getArtist` on the release table. -/
def getRelease (s : Session) (name mbid : List Char) : Release × Session :=
  if mbid ≠ [] then
    match Release.getByMBID s mbid with
    | some release => (release, s)
    | none => Release.create s name mbid
  else if name ≠ [] then
    match (Release.getByName s name).find? (fun r => r.mbid == ([] : List Char)) with
    | some release => (release, s)
    | none => Release.create s name []
  else
    Release.getNone s

/-- Modelled from the spec: the name of the sentinel "unknown genre" row
(`Genre::getNone`, not among the sources). -/
def unknownGenreName : List Char := '<' :: 'N' :: 'o' :: 'n' :: 'e' :: '>' :: []

/-- `Updater::getGenres` (DatabaseUpdater.cpp:338-356): look up or create a
genre row per extracted name; an empty result list becomes the sentinel. -/
def getGenres (s : Session) (names : List (List Char)) :
    List (List Char) × Session :=
  let step := fun (acc : List (List Char) × Session) (name : List Char) =>
    let (gs, st) := acc
    match st.genreRows.find? (fun g => g == name) with
    | some g => (gs ++ [g], st)
    | none => (gs ++ [name], { st with genreRows := st.genreRows ++ [name] })
  let (gs, st) := names.foldl step ([], s)
  if gs.isEmpty then
    match st.genreRows.find? (fun g => g == unknownGenreName) with
    | some g => ([g], st)
    | none => ([unknownGenreName], { st with genreRows := st.genreRows ++ [unknownGenreName] })
  else (gs, st)

/-!  Per-file change application (`Updater::processAudioFile`,
`Updater::processVideoFile`). -/

/-- The `MetaData::Items` attribute bag returned by the parser: a sparse,
typed mapping (absent key = attribute not present in the file).  Stream
lists carry opaque descriptors; only emptiness matters to the updater. -/
structure Items where
  title : Option (List Char)
  artist : Option (List Char)
  musicBrainzArtistID : Option (List Char)
  album : Option (List Char)
  musicBrainzAlbumID : Option (List Char)
  genres : Option (List (List Char))
  trackNumber : Option Nat
  discNumber : Option Nat
  date : Option Int
  originalDate : Option Int
  duration : Option Int
  audioStreams : Option (List Nat)
  videoStreams : Option (List Nat)
  hasCover : Option Bool
  deriving DecidableEq, Repr

instance exceptDecEq {ε α : Type} [DecidableEq ε] [DecidableEq α] :
    DecidableEq (Except ε α) := fun a b =>
  match a, b with
  | Except.error e, Except.error f =>
    if h : e = f then isTrue (by rw [h])
    else isFalse (by intro hh; cases hh; exact h rfl)
  | Except.error _, Except.ok _ => isFalse (by intro hh; cases hh)
  | Except.ok _, Except.error _ => isFalse (by intro hh; cases hh)
  | Except.ok x, Except.ok y =>
    if h : x = y then isTrue (by rw [h])
    else isFalse (by intro hh; cases hh; exact h rfl)

/-- Everything `processAudioFile` observes about the world outside the
catalog for one file: the filesystem mtime (`last_write_time`), the cover
grabber's answer for the file's directory, and the parser's outcome
(`Except.error` = the call threw). -/
structure AudioEnv where
  lastWriteTime : Nat
  externalCovers : List Path
  parseResult : Except Unit Items
  deriving DecidableEq, Repr

/-- What `processVideoFile` observes: mtime and parse outcome. -/
structure VideoEnv where
  lastWriteTime : Nat
  parseResult : Except Unit Items
  deriving DecidableEq, Repr

/-- The genre-list string built at DatabaseUpdater.cpp:497-508: names joined
with `", "`, by the exact loop of the source. -/
def genreListString (genres : List (List Char)) : List Char :=
  genres.foldl
    (fun acc g =>
      (if acc.isEmpty then acc else acc ++ (',' :: ' ' :: [])) ++ g)
    []

/-- The cover-state assignment at DatabaseUpdater.cpp:529-539: executed only
when the `HasCover` attribute is present; then `Embedded` when true, else
`ExternalFile` when external covers were found, else `None`. -/
def applyCover (hasCover? : Option Bool) (externalCovers : List Path)
    (t : Track) : Track :=
  match hasCover? with
  | some hasCover =>
    if hasCover then { t with coverType := CoverType.embedded }
    else if ¬ externalCovers.isEmpty then { t with coverType := CoverType.externalFile }
    else { t with coverType := CoverType.noCover }
  | none => t

/-- Modelled from the spec where the `Track` schema is absent from the
sources: `Track::create(session, file)` makes a fresh row for this path
with default attributes (no cover, empty associations); `processAudioFile`
overwrites every field it is interested in before committing. -/
def Track.createRow (file : Path) : Track :=
  { path := file, name := [], duration := 0, lastWriteTime := 0
    coverType := CoverType.noCover, artistId := 0, releaseId := 0
    genreListStr := [], genres := [], trackNumber := none, discNumber := none
    date := none, originalDate := none }

/-- Modelled from the spec where the `Video` schema is absent from the
sources: `Video::create(session, file)`. -/
def Video.createRow (file : Path) : Video :=
  { path := file, name := [], duration := 0, lastWriteTime := 0 }

/-- Store `t` as the row for `file`: replace the existing row at this path,
or append when the row was just created. -/
def putTrack (s : Session) (file : Path) (t : Track) : Session :=
  match s.tracks.find? (fun u => u.path == file) with
  | some _ => { s with tracks := s.tracks.map (fun u => if u.path == file then t else u) }
  | none => { s with tracks := s.tracks ++ [t] }

/-- Store `v` as the video row for `file`. -/
def putVideo (s : Session) (file : Path) (v : Video) : Session :=
  match s.videos.find? (fun u => u.path == file) with
  | some _ => { s with videos := s.videos.map (fun u => if u.path == file then v else u) }
  | none => { s with videos := s.videos ++ [v] }

/-- The attribute assignments of the row-write step
(DatabaseUpdater.cpp:491-527): artist, release, mtime, title, duration and
genre columns unconditionally; track number, disc number, date and original
date only when present in the extracted bag, with the original-date-only
fallback onto the date column. -/
def buildTrackCore (items : Items) (lastWriteTime : Nat) (title : List Char)
    (genres : List (List Char)) (artist : Artist) (release : Release)
    (t0 : Track) : Track :=
  let t1 :=
    { t0 with
      artistId := artist.id
      releaseId := release.id
      lastWriteTime := lastWriteTime
      name := title
      duration := (match items.duration with | some d => d | none => 0)
      genreListStr := genreListString genres
      genres := genres }
  let t2 :=
    match items.trackNumber with
    | some n => { t1 with trackNumber := some n }
    | none => t1
  let t3 :=
    match items.discNumber with
    | some n => { t2 with discNumber := some n }
    | none => t2
  let t4 :=
    match items.date with
    | some d => { t3 with date := some d }
    | none => t3
  match items.originalDate with
  | some od =>
    let ta := { t4 with originalDate := some od }
    -- a file with an OriginalDate but no Date also gets its date set
    (match items.date with
     | none => { ta with date := some od }
     | some _ => ta)
  | none => t4

/-- `Updater::processAudioFile` (DatabaseUpdater.cpp:358-546) as a state
transformer on the catalog and the per-pass stats.  The `try`/`catch`
around the body and the single transaction become: a parse error (the only
throwing step) yields the unchanged pair. -/
def processAudioFile (env : AudioEnv) (file : Path) (s : Session)
    (stats : Stats) : Session × Stats :=
  let lastWriteTime := env.lastWriteTime
  let track? := Track.getByPath s file
  -- if the file is the same and embeds covers, no need to update
  if (match track? with
      | some t => t.lastWriteTime == lastWriteTime && t.coverType == CoverType.embedded
      | none => false) then
    (s, stats)
  else
    let externalCovers := env.externalCovers
    -- no change since last time; skip only if no external cover has to be set
    if (match track? with
        | some t =>
          t.lastWriteTime == lastWriteTime &&
            ((t.coverType == CoverType.noCover && externalCovers.isEmpty)
              || (t.coverType == CoverType.externalFile && !externalCovers.isEmpty))
        | none => false) then
      (s, stats)
    else
      match env.parseResult with
      | Except.error _ => (s, stats)
      | Except.ok items =>
        if (match items.audioStreams with
            | none => true
            | some streams => streams.isEmpty) then
          match track? with
          | some _ => (removeTrack s file, { stats with nbRemoved := stats.nbRemoved + 1 })
          | none => (s, stats)
        else if (match items.duration with
            | none => true
            | some d => d ≤ 0) then
          match track? with
          | some _ => (removeTrack s file, { stats with nbRemoved := stats.nbRemoved + 1 })
          | none => (s, stats)
        else
          let title :=
            match items.title with
            | some t => t
            | none => filenameOf file
          let (genres, s1) :=
            getGenres s (match items.genres with | some gs => gs | none => [])
          let (artist, s2) :=
            getArtist s1
              (match items.artist with | some n => n | none => [])
              (match items.musicBrainzArtistID with | some m => m | none => [])
          let (release, s3) :=
            getRelease s2
              (match items.album with | some n => n | none => [])
              (match items.musicBrainzAlbumID with | some m => m | none => [])
          let (t0, stats1) :=
            match track? with
            | none => (Track.createRow file, { stats with nbAdded := stats.nbAdded + 1 })
            | some t => (t, { stats with nbModified := stats.nbModified + 1 })
          let t5 := buildTrackCore items lastWriteTime title genres artist release t0
          let t6 := applyCover items.hasCover externalCovers t5
          (putTrack s3 file t6, stats1)

/-- `Updater::processVideoFile` (DatabaseUpdater.cpp:695-767).  Note the
duration disqualification compares `total_seconds() == 0`, not `<= 0`. -/
def processVideoFile (env : VideoEnv) (file : Path) (s : Session)
    (stats : Stats) : Session × Stats :=
  let lastWriteTime := env.lastWriteTime
  let video? := Video.getByPath s file
  -- skip file if last write is the same
  if (match video? with
      | some v => v.lastWriteTime == lastWriteTime
      | none => false) then
    (s, stats)
  else
    match env.parseResult with
    | Except.error _ => (s, stats)
    | Except.ok items =>
      if (match items.videoStreams with
          | none => true
          | some streams => streams.isEmpty) then
        match video? with
        | some _ => (removeVideo s file, { stats with nbRemoved := stats.nbRemoved + 1 })
        | none => (s, stats)
      else if (match items.duration with
          | none => true
          | some d => d == 0) then
        match video? with
        | some _ => (removeVideo s file, { stats with nbRemoved := stats.nbRemoved + 1 })
        | none => (s, stats)
      else
        let (v0, stats1) :=
          match video? with
          | none => (Video.createRow file, { stats with nbAdded := stats.nbAdded + 1 })
          | some v => (v, { stats with nbModified := stats.nbModified + 1 })
        let v1 :=
          { v0 with
            name := filenameOf file
            duration := (match items.duration with | some d => d | none => 0)
            lastWriteTime := lastWriteTime }
        (putVideo s file v1, stats1)

/-!  Helper lemmas. -/

theorem extFromRev_shape (l : List Char) (e : List Char)
    (h : extFromRev l = some e) : ∃ s, e = '.' :: s ∧ '.' ∉ s := by
  induction l generalizing e with
  | nil => simp [extFromRev] at h
  | cons c rest ih =>
    by_cases hc : c = '.'
    · subst hc
      simp [extFromRev] at h
      exact ⟨[], h.symm ▸ ⟨rfl, by simp⟩⟩
    · rw [extFromRev, if_neg hc] at h
      cases hrest : extFromRev rest with
      | none => rw [hrest] at h; exact absurd h (by simp)
      | some e' =>
        rw [hrest] at h
        simp at h
        obtain ⟨s', hs', hdot⟩ := ih e' hrest
        refine ⟨s' ++ [c], ?_, ?_⟩
        · rw [← h, hs']; simp
        · simp [hdot, hc]
          intro hcontra
          exact hc hcontra.symm

theorem extensionOf_shape (p : Path) :
    extensionOf p = [] ∨ ∃ s, extensionOf p = '.' :: s ∧ '.' ∉ s := by
  unfold extensionOf
  set f := filenameOf p with hf
  by_cases hsp : f = ['.'] ∨ f = ['.', '.']
  · left; simp [hsp]
  · rw [if_neg hsp]
    cases hrev : extFromRev f.reverse with
    | none => left; rfl
    | some e =>
      right
      obtain ⟨s, hs, hdot⟩ := extFromRev_shape _ _ hrev
      exact ⟨s, by simp [hs], hdot⟩

theorem sweepTracks_eq (fs : FileSys) (roots exts : List Path) :
    ∀ (ts : List Track) (stats : Stats),
      sweepTracks fs roots exts ts stats
        = (ts.filter (fun t => checkFile fs t.path roots exts),
           { stats with
             nbRemoved := stats.nbRemoved
               + ts.countP (fun t => !(checkFile fs t.path roots exts)) }) := by
  intro ts
  induction ts with
  | nil => intro stats; simp [sweepTracks]
  | cons t ts ih =>
    intro stats
    by_cases h : checkFile fs t.path roots exts
    · simp [sweepTracks, h, ih, List.countP_cons]
    · simp [sweepTracks, h, ih, List.countP_cons]
      omega

theorem sweepVideos_eq (fs : FileSys) (roots exts : List Path) :
    ∀ (vs : List Video) (stats : Stats),
      sweepVideos fs roots exts vs stats
        = (vs.filter (fun v => checkFile fs v.path roots exts),
           { stats with
             nbRemoved := stats.nbRemoved
               + vs.countP (fun v => !(checkFile fs v.path roots exts)) }) := by
  intro vs
  induction vs with
  | nil => intro stats; simp [sweepVideos]
  | cons v vs ih =>
    intro stats
    by_cases h : checkFile fs v.path roots exts
    · simp [sweepVideos, h, ih, List.countP_cons]
    · simp [sweepVideos, h, ih, List.countP_cons]
      omega

theorem checkFile_eq_true_iff (fs : FileSys) (p : Path)
    (roots exts : List Path) :
    checkFile fs p roots exts = true ↔
      fs.fsExists p = true ∧ fs.isRegular p = true ∧
        (∃ r ∈ roots, occursIn r p = true) ∧
        isFileSupported p exts = true := by
  by_cases hE : fs.fsExists p = true <;>
    by_cases hR : fs.isRegular p = true <;>
    by_cases hF : (roots.any fun rootDir => occursIn rootDir p) = true <;>
    by_cases hS : isFileSupported p exts = true <;>
    simp [checkFile, hE, hR, hF, hS, ← List.any_eq_true]

/-!  Concrete inputs for counterexamples and witnesses. -/

/-- A file that exists on disk, inside directory `/data/music`. -/
def cPath : Path := ("/data/music/x.mp3").toList

/-- A configured audio root that is NOT a path-prefix of `cPath`, yet occurs
inside it as a substring. -/
def cRoot : Path := ("/music").toList

/-- A filesystem on which exactly `cPath` exists and is regular. -/
def cFs : FileSys :=
  { fsExists := fun p => p == cPath, isRegular := fun p => p == cPath }

/-- A track row for `cPath`. -/
def cTrack : Track :=
  { path := cPath, name := ("x.mp3").toList, duration := 180
    lastWriteTime := 5, coverType := CoverType.noCover, artistId := 0
    releaseId := 0, genreListStr := [], genres := [], trackNumber := none
    discNumber := none, date := none, originalDate := none }

/-- A catalog containing only that track. -/
def cSession : Session :=
  { tracks := [cTrack], videos := [], artists := [], releases := []
    genreRows := [], nextArtistId := 0, nextReleaseId := 0 }

/-- C1 counterexample: `cPath` exists, is regular, has a supported
extension, and is NOT prefixed by the only configured root `/music` — the
claim says the Consistency Sweeper must delete the row, but `checkFile`
passes it (root containment is substring search, `std::string::find`), and
the sweep keeps the row with no removal counted. -/
theorem c1_counterexample :
    cFs.fsExists cPath = true ∧ cFs.isRegular cPath = true
      ∧ List.isPrefixOf cRoot cPath = false
      ∧ isFileSupported cPath (setAudioExtensions [("mp3").toList]) = true
      ∧ checkFile cFs cPath [cRoot] (setAudioExtensions [("mp3").toList]) = true
      ∧ (checkAudioFiles cFs [cRoot] (setAudioExtensions [("mp3").toList])
          cSession ⟨0, 0, 0⟩).1.tracks = [cTrack]
      ∧ (checkAudioFiles cFs [cRoot] (setAudioExtensions [("mp3").toList])
          cSession ⟨0, 0, 0⟩).2.nbRemoved = 0 := by
  refine ⟨by decide, by decide, by decide, by decide, by decide, by decide, by decide⟩

/-- C1 (amended): a Track (resp. Video) row survives the Consistency
Sweeper iff its file exists on disk, is a regular file, the string of at
least one configured root of the matching kind occurs as a substring of
its path (`std::string::find`, not a prefix check), and its extension is
in the configured set for that kind; every row failing the check is
deleted and counted in `Stats.nbRemoved`. -/
theorem c1_sweeper_amended (fs : FileSys) (roots exts : List Path) :
    (∀ p : Path,
      checkFile fs p roots exts = true ↔
        fs.fsExists p = true ∧ fs.isRegular p = true ∧
          (∃ r ∈ roots, occursIn r p = true) ∧
          isFileSupported p exts = true)
    ∧ (∀ (s : Session) (stats : Stats),
        (checkAudioFiles fs roots exts s stats).1.tracks
            = s.tracks.filter (fun t => checkFile fs t.path roots exts)
        ∧ (checkAudioFiles fs roots exts s stats).2.nbRemoved
            = stats.nbRemoved
              + s.tracks.countP (fun t => !(checkFile fs t.path roots exts))
        ∧ (checkVideoFiles fs roots exts s stats).1.videos
            = s.videos.filter (fun v => checkFile fs v.path roots exts)
        ∧ (checkVideoFiles fs roots exts s stats).2.nbRemoved
            = stats.nbRemoved
              + s.videos.countP (fun v => !(checkFile fs v.path roots exts))) := by
  constructor
  · intro p
    exact checkFile_eq_true_iff fs p roots exts
  · intro s stats
    refine ⟨?_, ?_, ?_, ?_⟩ <;>
      simp [checkAudioFiles, checkVideoFiles, sweepTracks_eq, sweepVideos_eq]

/-- C10: a file matches the configured extension list iff its extension
(with its leading dot, compared case-sensitively) equals `"." + e` for some
configured string `e`; and since every nonempty extension is a dot followed
by dot-free characters, a configured string that itself starts with a dot
(stored as `".." + rest`) matches no file at all. -/
theorem c10_extension_match :
    (∀ (es : List (List Char)) (p : Path),
        isFileSupported p (setAudioExtensions es) = true ↔
          ∃ e ∈ es, extensionOf p = '.' :: e)
    ∧ (∀ (e : List Char) (p : Path),
        isFileSupported p (setAudioExtensions ['.' :: e]) = false)
    ∧ setVideoExtensions [('.' :: ('m' :: 'p' :: '4' :: []))]
        = ['.' :: '.' :: 'm' :: 'p' :: '4' :: []] := by
  refine ⟨?_, ?_, rfl⟩
  · intro es p
    simp only [isFileSupported, setAudioExtensions, List.any_eq_true,
      List.mem_map]
    constructor
    · rintro ⟨x, ⟨e, he, hx⟩, hbeq⟩
      refine ⟨e, he, ?_⟩
      have : x = extensionOf p := by
        exact eq_of_beq hbeq
      rw [← this, ← hx]
    · rintro ⟨e, he, hext⟩
      exact ⟨'.' :: e, ⟨e, he, rfl⟩, by simp [hext]⟩
  · intro e p
    by_contra hsup
    rw [Bool.not_eq_false] at hsup
    simp only [isFileSupported, setAudioExtensions, List.any_eq_true,
      List.mem_map] at hsup
    obtain ⟨x, ⟨e', he', hx⟩, hbeq⟩ := hsup
    simp at he'
    subst he'
    have hext : extensionOf p = '.' :: '.' :: e := by
      have := eq_of_beq hbeq
      rw [← this, ← hx]
    rcases extensionOf_shape p with hnil | ⟨s, hs, hdot⟩
    · rw [hnil] at hext; exact absurd hext (by simp)
    · rw [hs] at hext
      have : s = '.' :: e := by
        injection hext with _ h2
      rw [this] at hdot
      exact hdot (by simp)

theorem exists_monday_within (d : Nat) : ∃ k, k < 7 ∧ (d + k) % 7 = 1 := by
  have h : d % 7 = 0 ∨ d % 7 = 1 ∨ d % 7 = 2 ∨ d % 7 = 3 ∨ d % 7 = 4
      ∨ d % 7 = 5 ∨ d % 7 = 6 := by omega
  rcases h with h | h | h | h | h | h | h
  · exact ⟨1, by omega, by omega⟩
  · exact ⟨0, by omega, by omega⟩
  · exact ⟨6, by omega, by omega⟩
  · exact ⟨5, by omega, by omega⟩
  · exact ⟨4, by omega, by omega⟩
  · exact ⟨3, by omega, by omega⟩
  · exact ⟨2, by omega, by omega⟩

theorem nextMondayAux_spec :
    ∀ (fuel d : Nat), (∃ k, k < fuel ∧ (d + k) % 7 = 1) →
      d ≤ nextMondayAux fuel d
        ∧ nextMondayAux fuel d % 7 = 1
        ∧ nextMondayAux fuel d < d + fuel
        ∧ ∀ j, d ≤ j → j < nextMondayAux fuel d → j % 7 ≠ 1 := by
  intro fuel
  induction fuel with
  | zero =>
    intro d h
    obtain ⟨k, hk, _⟩ := h
    omega
  | succ n ih =>
    intro d h
    by_cases hd : d % 7 = 1
    · rw [nextMondayAux, if_pos hd]
      exact ⟨le_refl d, hd, by omega, fun j hj1 hj2 => by omega⟩
    · rw [nextMondayAux, if_neg hd]
      have hnext : ∃ k, k < n ∧ (d + 1 + k) % 7 = 1 := by
        obtain ⟨k, hk, hmod⟩ := h
        have hk0 : k ≠ 0 := by
          intro h0
          rw [h0] at hmod
          simp at hmod
          exact hd hmod
        exact ⟨k - 1, by omega, by omega⟩
      obtain ⟨hle, hmod, hlt, hmin⟩ := ih (d + 1) hnext
      refine ⟨by omega, hmod, by omega, ?_⟩
      intro j hj1 hj2
      by_cases hjd : j = d
      · rw [hjd]; exact hd
      · exact hmin j (by omega) hj2

/-- C5: for every current instant and configured start-of-day, the Weekly
scheduler fires today at the start time when today is Monday and the time
of day is still before it; otherwise it fires at the strictly next Monday
(the unique Monday in the following seven days).  The three scenario
instants of the spec (Monday 08:00, Monday 10:00, Tuesday 10:00 with a
09:00 start) evaluate as stated. -/
theorem c5_weekly_scheduler (now : NowTime) (startTime : Nat) :
    (now.date % 7 = 1 → now.timeOfDay < startTime →
      weeklyNextScanDate now startTime = now.date)
    ∧ (¬ (now.timeOfDay < startTime ∧ now.date % 7 = 1) →
        now.date < weeklyNextScanDate now startTime
          ∧ weeklyNextScanDate now startTime % 7 = 1
          ∧ weeklyNextScanDate now startTime ≤ now.date + 7
          ∧ ∀ j, now.date < j → j < weeklyNextScanDate now startTime →
              j % 7 ≠ 1)
    ∧ weeklyNextScanDate ⟨8, 8 * 3600⟩ (9 * 3600) = 8
    ∧ weeklyNextScanDate ⟨8, 10 * 3600⟩ (9 * 3600) = 15
    ∧ weeklyNextScanDate ⟨9, 10 * 3600⟩ (9 * 3600) = 15 := by
  refine ⟨?_, ?_, by decide, by decide, by decide⟩
  · intro hmon hbefore
    rw [weeklyNextScanDate, if_pos ⟨hbefore, hmon⟩]
  · intro hnot
    rw [weeklyNextScanDate, if_neg hnot]
    have hspec := nextMondayAux_spec 7 (now.date + 1)
      (exists_monday_within (now.date + 1))
    unfold getNextMonday
    obtain ⟨hle, hmod, hlt, hmin⟩ := hspec
    refine ⟨by omega, hmod, by omega, ?_⟩
    intro j hj1 hj2
    exact hmin j (by omega) hj2

/-- C5 witness: the Monday-08:00 branch through the first implication and
the Monday-10:00 branch through the second. -/
theorem c5_weekly_scheduler_witness :
    weeklyNextScanDate ⟨8, 8 * 3600⟩ (9 * 3600) = 8
      ∧ 8 < weeklyNextScanDate ⟨8, 10 * 3600⟩ (9 * 3600) := by
  refine ⟨(c5_weekly_scheduler ⟨8, 8 * 3600⟩ (9 * 3600)).1 (by decide) (by decide), ?_⟩
  exact ((c5_weekly_scheduler ⟨8, 10 * 3600⟩ (9 * 3600)).2.1 (by decide)).1

/-- C2: the bookkeeping transaction at the end of a pass assigns
`lastUpdate := now` exactly when the pass counted at least one
added/modified/removed row, assigns `lastScan := now` and clears a pending
manual-scan flag exactly when the pass ran to completion (`_running` still
true); in particular a pass stopped mid-walk during a manual scan leaves
`manualScanRequested` and `lastScan` untouched. -/
theorem c2_scan_bookkeeping (running : Bool) (stats : Stats) (now : Nat)
    (s : Settings) :
    processScanBookkeeping running stats now s
      = { manualScanRequested :=
            if s.manualScanRequested = true ∧ running = true then false
            else s.manualScanRequested
          lastScan := if running then some now else s.lastScan
          lastUpdate :=
            if stats.nbAdded + stats.nbModified + stats.nbRemoved > 0 then
              some now
            else s.lastUpdate }
    ∧ (processScanBookkeeping false stats now s).manualScanRequested
        = s.manualScanRequested
    ∧ (processScanBookkeeping false stats now s).lastScan = s.lastScan := by
  refine ⟨?_, ?_, ?_⟩
  · obtain ⟨m, ls, lu⟩ := s
    unfold processScanBookkeeping Stats.nbChanges
    by_cases hch : stats.nbAdded + stats.nbModified + stats.nbRemoved > 0 <;>
      by_cases hr : running = true <;>
      by_cases hm : m = true <;>
      simp_all
  · unfold processScanBookkeeping
    by_cases hch : stats.nbChanges > 0 <;> simp [hch]
  · unfold processScanBookkeeping
    by_cases hch : stats.nbChanges > 0 <;> simp [hch]

theorem find?_append_of_none {α : Type} (p : α → Bool) (l₁ l₂ : List α)
    (h : l₁.find? p = none) : (l₁ ++ l₂).find? p = l₂.find? p := by
  induction l₁ with
  | nil => simp
  | cons a t ih =>
    by_cases hpa : p a = true
    · rw [List.find?_cons_of_pos _ hpa] at h
      exact absurd h (by simp)
    · rw [List.find?_cons_of_neg _ (by simp [hpa])] at h
      rw [List.cons_append, List.find?_cons_of_neg _ (by simp [hpa])]
      exact ih h

/-- An empty catalog, used as the concrete base of witnesses. -/
def emptySession : Session :=
  { tracks := [], videos := [], artists := [], releases := []
    genreRows := [], nextArtistId := 0, nextReleaseId := 0 }

theorem getArtist_mbid_spec (s : Session) (name mbid : List Char)
    (h : mbid ≠ []) :
    (getArtist s name mbid).1.mbid = mbid ∧
      Artist.getByMBID (getArtist s name mbid).2 mbid
        = some (getArtist s name mbid).1 := by
  rw [getArtist, if_pos h]
  cases hfind : Artist.getByMBID s mbid with
  | some a =>
    refine ⟨?_, hfind⟩
    have := List.find?_some hfind
    simpa using this
  | none =>
    unfold Artist.create
    refine ⟨rfl, ?_⟩
    unfold Artist.getByMBID at hfind ⊢
    simp only
    rw [find?_append_of_none _ _ _ hfind]
    simp

theorem getArtist_mbid_found (s : Session) (name mbid : List Char)
    (h : mbid ≠ []) (a : Artist)
    (hf : Artist.getByMBID s mbid = some a) : getArtist s name mbid = (a, s) := by
  rw [getArtist, if_pos h, hf]

theorem getRelease_mbid_spec (s : Session) (name mbid : List Char)
    (h : mbid ≠ []) :
    (getRelease s name mbid).1.mbid = mbid ∧
      Release.getByMBID (getRelease s name mbid).2 mbid
        = some (getRelease s name mbid).1 := by
  rw [getRelease, if_pos h]
  cases hfind : Release.getByMBID s mbid with
  | some r =>
    refine ⟨?_, hfind⟩
    have := List.find?_some hfind
    simpa using this
  | none =>
    unfold Release.create
    refine ⟨rfl, ?_⟩
    unfold Release.getByMBID at hfind ⊢
    simp only
    rw [find?_append_of_none _ _ _ hfind]
    simp

theorem getRelease_mbid_found (s : Session) (name mbid : List Char)
    (h : mbid ≠ []) (r : Release)
    (hf : Release.getByMBID s mbid = some r) : getRelease s name mbid = (r, s) := by
  rw [getRelease, if_pos h, hf]

/-- C3: with a non-empty global id, resolving twice with the same id — the
names may differ — returns the same entity and leaves the catalog exactly
as after the first call (so the stored name is not updated), for the
Artist and the Release resolver alike; the returned entity carries the id. -/
theorem c3_resolver_id_authoritative (s : Session) (name1 name2 mbid : List Char)
    (hmbid : mbid ≠ []) :
    (getArtist (getArtist s name1 mbid).2 name2 mbid = getArtist s name1 mbid
      ∧ (getArtist s name1 mbid).1.mbid = mbid)
    ∧ (getRelease (getRelease s name1 mbid).2 name2 mbid = getRelease s name1 mbid
      ∧ (getRelease s name1 mbid).1.mbid = mbid) := by
  obtain ⟨hm, hf⟩ := getArtist_mbid_spec s name1 mbid hmbid
  obtain ⟨hmr, hfr⟩ := getRelease_mbid_spec s name1 mbid hmbid
  exact ⟨⟨getArtist_mbid_found _ _ _ hmbid _ hf, hm⟩,
    ⟨getRelease_mbid_found _ _ _ hmbid _ hfr, hmr⟩⟩

/-- C3 witness: two resolutions with id `X` and drifting names `A`, `B`
over the empty catalog return the same artist (resp. release) and catalog. -/
theorem c3_resolver_id_authoritative_witness :
    getArtist (getArtist emptySession ('A' :: []) ('X' :: [])).2 ('B' :: []) ('X' :: [])
        = getArtist emptySession ('A' :: []) ('X' :: [])
      ∧ getRelease (getRelease emptySession ('A' :: []) ('X' :: [])).2 ('B' :: []) ('X' :: [])
        = getRelease emptySession ('A' :: []) ('X' :: []) := by
  have h := c3_resolver_id_authoritative emptySession ('A' :: []) ('B' :: [])
    ('X' :: []) (by decide)
  exact ⟨h.1.1, h.2.1⟩

theorem getArtist_noid_eq (s : Session) (name : List Char) (hname : name ≠ []) :
    getArtist s name []
      = match (Artist.getByName s name).find? (fun a => a.mbid == ([] : List Char)) with
        | some a => (a, s)
        | none => Artist.create s name [] := by
  rw [getArtist, if_neg (by simp), if_pos hname]

theorem getArtist_noid_stable (s : Session) (name : List Char) (hname : name ≠ []) :
    (getArtist s name []).1.mbid = []
      ∧ (Artist.getByName (getArtist s name []).2 name).find?
          (fun a => a.mbid == ([] : List Char)) = some (getArtist s name []).1 := by
  rw [getArtist_noid_eq s name hname]
  cases hfind : (Artist.getByName s name).find? (fun a => a.mbid == ([] : List Char)) with
  | some a =>
    simp only
    have := List.find?_some hfind
    exact ⟨by simpa using this, hfind⟩
  | none =>
    unfold Artist.create
    simp only
    refine ⟨by trivial, ?_⟩
    unfold Artist.getByName at hfind ⊢
    simp only
    rw [List.filter_append]
    have hnew : List.filter (fun a => a.name == name)
        [({ id := s.nextArtistId, name := name, mbid := [] } : Artist)]
        = [({ id := s.nextArtistId, name := name, mbid := [] } : Artist)] := by
      simp
    rw [hnew, find?_append_of_none _ _ _ hfind]
    simp

theorem getArtist_noid_found (s : Session) (name : List Char) (hname : name ≠ [])
    (a : Artist)
    (hf : (Artist.getByName s name).find? (fun x => x.mbid == ([] : List Char)) = some a) :
    getArtist s name [] = (a, s) := by
  rw [getArtist_noid_eq s name hname, hf]

theorem getArtist_fresh_mbid (s : Session) (name g : List Char) (hg : g ≠ [])
    (hfresh : Artist.getByMBID s g = none) :
    getArtist s name g = Artist.create s name g := by
  rw [getArtist, if_pos hg, hfresh]

theorem getRelease_noid_eq (s : Session) (name : List Char) (hname : name ≠ []) :
    getRelease s name []
      = match (Release.getByName s name).find? (fun r => r.mbid == ([] : List Char)) with
        | some r => (r, s)
        | none => Release.create s name [] := by
  rw [getRelease, if_neg (by simp), if_pos hname]

theorem getRelease_noid_stable (s : Session) (name : List Char) (hname : name ≠ []) :
    (getRelease s name []).1.mbid = []
      ∧ (Release.getByName (getRelease s name []).2 name).find?
          (fun r => r.mbid == ([] : List Char)) = some (getRelease s name []).1 := by
  rw [getRelease_noid_eq s name hname]
  cases hfind : (Release.getByName s name).find? (fun r => r.mbid == ([] : List Char)) with
  | some r =>
    simp only
    have := List.find?_some hfind
    exact ⟨by simpa using this, hfind⟩
  | none =>
    unfold Release.create
    simp only
    refine ⟨by trivial, ?_⟩
    unfold Release.getByName at hfind ⊢
    simp only
    rw [List.filter_append]
    have hnew : List.filter (fun r => r.name == name)
        [({ id := s.nextReleaseId, name := name, mbid := [] } : Release)]
        = [({ id := s.nextReleaseId, name := name, mbid := [] } : Release)] := by
      simp
    rw [hnew, find?_append_of_none _ _ _ hfind]
    simp

theorem getRelease_noid_found (s : Session) (name : List Char) (hname : name ≠ [])
    (r : Release)
    (hf : (Release.getByName s name).find? (fun x => x.mbid == ([] : List Char)) = some r) :
    getRelease s name [] = (r, s) := by
  rw [getRelease_noid_eq s name hname, hf]

theorem getRelease_fresh_mbid (s : Session) (name g : List Char) (hg : g ≠ [])
    (hfresh : Release.getByMBID s g = none) :
    getRelease s name g = Release.create s name g := by
  rw [getRelease, if_pos hg, hfresh]

/-- C4: resolving with an empty id and a non-empty name returns the first
same-named entity without a global id, creating one (with no id) when none
qualifies; hence resolving the same name twice without an id returns the
same entity and leaves the catalog unchanged, while a second resolution of
that name carrying a fresh global id creates a new, distinct entity
(appended to the table) instead of merging with the id-less one — for
Artist and Release alike. -/
theorem c4_resolver_name_fallback (s : Session) (name g : List Char)
    (hname : name ≠ []) (hg : g ≠ [])
    (hfreshA : Artist.getByMBID (getArtist s name []).2 g = none)
    (hfreshR : Release.getByMBID (getRelease s name []).2 g = none) :
    (getArtist s name []
        = match (Artist.getByName s name).find? (fun a => a.mbid == ([] : List Char)) with
          | some a => (a, s)
          | none => Artist.create s name [])
    ∧ getArtist (getArtist s name []).2 name [] = getArtist s name []
    ∧ (getArtist (getArtist s name []).2 name g).1 ≠ (getArtist s name []).1
    ∧ (getArtist (getArtist s name []).2 name g).2.artists
        = (getArtist s name []).2.artists
            ++ [(getArtist (getArtist s name []).2 name g).1]
    ∧ (getRelease s name []
        = match (Release.getByName s name).find? (fun r => r.mbid == ([] : List Char)) with
          | some r => (r, s)
          | none => Release.create s name [])
    ∧ getRelease (getRelease s name []).2 name [] = getRelease s name []
    ∧ (getRelease (getRelease s name []).2 name g).1 ≠ (getRelease s name []).1
    ∧ (getRelease (getRelease s name []).2 name g).2.releases
        = (getRelease s name []).2.releases
            ++ [(getRelease (getRelease s name []).2 name g).1] := by
  obtain ⟨hmbA, hstA⟩ := getArtist_noid_stable s name hname
  obtain ⟨hmbR, hstR⟩ := getRelease_noid_stable s name hname
  have h2A := getArtist_noid_found _ name hname _ hstA
  have h2R := getRelease_noid_found _ name hname _ hstR
  have h3A := getArtist_fresh_mbid (getArtist s name []).2 name g hg hfreshA
  have h3R := getRelease_fresh_mbid (getRelease s name []).2 name g hg hfreshR
  refine ⟨getArtist_noid_eq s name hname, ?_, ?_, ?_,
    getRelease_noid_eq s name hname, ?_, ?_, ?_⟩
  · rw [h2A]
  · intro heq
    have hmm : (getArtist (getArtist s name []).2 name g).1.mbid
        = (getArtist s name []).1.mbid := by rw [heq]
    rw [hmbA, h3A] at hmm
    unfold Artist.create at hmm
    simp only at hmm
    exact hg hmm
  · rw [h3A]
    unfold Artist.create
    simp only
  · rw [h2R]
  · intro heq
    have hmm : (getRelease (getRelease s name []).2 name g).1.mbid
        = (getRelease s name []).1.mbid := by rw [heq]
    rw [hmbR, h3R] at hmm
    unfold Release.create at hmm
    simp only at hmm
    exact hg hmm
  · rw [h3R]
    unfold Release.create
    simp only

/-- C4 witness: over the empty catalog, resolving name `A` twice without an
id gives the same artist, and a third resolution of `A` that now carries id
`X` yields a different artist. -/
theorem c4_resolver_name_fallback_witness :
    getArtist (getArtist emptySession ('A' :: []) []).2 ('A' :: []) []
        = getArtist emptySession ('A' :: []) []
      ∧ (getArtist (getArtist emptySession ('A' :: []) []).2 ('A' :: []) ('X' :: [])).1
        ≠ (getArtist emptySession ('A' :: []) []).1 := by
  have h := c4_resolver_name_fallback emptySession ('A' :: []) ('X' :: [])
    (by decide) (by decide) (by decide) (by decide)
  exact ⟨h.2.1, h.2.2.1⟩

/-!  C6 / C9: skip and error atomicity of per-file processing. -/

/-- C6: when a catalog row exists for the path, the filesystem mtime equals
the stored `lastWriteTime` and the stored cover state is `Embedded`,
`processAudioFile` returns before any extraction — whatever the parser
would have produced (`env.parseResult` is arbitrary, including an error)
the catalog and the stats come back exactly unchanged, so a re-run over
such files is the identity. -/
theorem c6_unchanged_embedded_skip (env : AudioEnv) (file : Path) (s : Session)
    (stats : Stats) (t : Track)
    (h1 : Track.getByPath s file = some t)
    (h2 : t.lastWriteTime = env.lastWriteTime)
    (h3 : t.coverType = CoverType.embedded) :
    processAudioFile env file s stats = (s, stats) := by
  unfold processAudioFile
  rw [h1]
  simp [h2, h3]

/-- An attribute bag whose content would rewrite the row if it were ever
extracted — used to witness that the embedded-cover skip consults nothing
beyond mtime and cover state. -/
def wItems : Items :=
  { title := some ('T' :: []), artist := some ('A' :: [])
    musicBrainzArtistID := none, album := some ('B' :: [])
    musicBrainzAlbumID := none, genres := none, trackNumber := some 1
    discNumber := none, date := none, originalDate := none
    duration := some 120, audioStreams := some [0], videoStreams := none
    hasCover := some true }

/-- A track row at `cPath` with mtime `5` and an embedded cover. -/
def wTrack : Track :=
  { cTrack with lastWriteTime := 5, coverType := CoverType.embedded }

/-- A catalog holding exactly `wTrack`. -/
def wSession : Session :=
  { emptySession with tracks := [wTrack] }

/-- C6 witness: the concrete embedded-cover, unchanged-mtime file is
skipped untouched. -/
theorem c6_unchanged_embedded_skip_witness :
    processAudioFile
        { lastWriteTime := 5, externalCovers := [], parseResult := Except.ok wItems }
        cPath wSession ⟨0, 0, 0⟩
      = (wSession, ⟨0, 0, 0⟩) :=
  c6_unchanged_embedded_skip _ cPath wSession ⟨0, 0, 0⟩ wTrack
    (by decide) (by decide) (by decide)

/-- C9: when metadata extraction throws, the error is caught at file
granularity: both `processAudioFile` and `processVideoFile` return the
catalog and the stats exactly as they were (the file's transaction is
discarded, nothing propagates to the rest of the pass). -/
theorem c9_parse_error_atomic (envA : AudioEnv) (envV : VideoEnv)
    (fileA fileV : Path) (s : Session) (stats : Stats)
    (hA : envA.parseResult = Except.error ())
    (hV : envV.parseResult = Except.error ()) :
    processAudioFile envA fileA s stats = (s, stats)
      ∧ processVideoFile envV fileV s stats = (s, stats) := by
  constructor
  · simp [processAudioFile, hA]
  · simp [processVideoFile, hV]

/-- C9 witness: a file whose parse throws over a one-track catalog leaves
the catalog and the stats unchanged. -/
theorem c9_parse_error_atomic_witness :
    processAudioFile
        { lastWriteTime := 9, externalCovers := [], parseResult := Except.error () }
        cPath wSession ⟨1, 2, 3⟩
      = (wSession, ⟨1, 2, 3⟩)
    ∧ processVideoFile
        { lastWriteTime := 9, parseResult := Except.error () }
        cPath wSession ⟨1, 2, 3⟩
      = (wSession, ⟨1, 2, 3⟩) :=
  c9_parse_error_atomic _ _ cPath cPath wSession ⟨1, 2, 3⟩ rfl rfl

/-!  C7: disqualification. -/

theorem processAudioFile_disqualify (env : AudioEnv) (file : Path) (s : Session)
    (stats : Stats) (items : Items)
    (hok : env.parseResult = Except.ok items)
    (hskip : ∀ t, Track.getByPath s file = some t →
      t.lastWriteTime ≠ env.lastWriteTime)
    (hbad : (match items.audioStreams with
             | none => true
             | some streams => streams.isEmpty) = true
        ∨ (match items.duration with
           | none => true
           | some d => decide (d ≤ 0)) = true) :
    processAudioFile env file s stats
      = match Track.getByPath s file with
        | some _ => (removeTrack s file,
            { stats with nbRemoved := stats.nbRemoved + 1 })
        | none => (s, stats) := by
  cases htrack : Track.getByPath s file with
  | none =>
    rcases hbad with hb | hb
    · simp [processAudioFile, htrack, hok, hb]
    · by_cases hstr : (match items.audioStreams with
          | none => true
          | some streams => streams.isEmpty) = true
      · simp [processAudioFile, htrack, hok, hstr]
      · simp [processAudioFile, htrack, hok, hstr, hb]
  | some t =>
    have hne := hskip t htrack
    have hbeq : (t.lastWriteTime == env.lastWriteTime) = false := by
      simp [hne]
    rcases hbad with hb | hb
    · simp [processAudioFile, htrack, hok, hbeq, hb]
    · by_cases hstr : (match items.audioStreams with
          | none => true
          | some streams => streams.isEmpty) = true
      · simp [processAudioFile, htrack, hok, hbeq, hstr]
      · simp [processAudioFile, htrack, hok, hbeq, hstr, hb]

theorem processVideoFile_disqualify (env : VideoEnv) (file : Path) (s : Session)
    (stats : Stats) (items : Items)
    (hok : env.parseResult = Except.ok items)
    (hskip : ∀ v, Video.getByPath s file = some v →
      v.lastWriteTime ≠ env.lastWriteTime)
    (hbad : (match items.videoStreams with
             | none => true
             | some streams => streams.isEmpty) = true
        ∨ (match items.duration with
           | none => true
           | some d => d == 0) = true) :
    processVideoFile env file s stats
      = match Video.getByPath s file with
        | some _ => (removeVideo s file,
            { stats with nbRemoved := stats.nbRemoved + 1 })
        | none => (s, stats) := by
  cases hvideo : Video.getByPath s file with
  | none =>
    rcases hbad with hb | hb
    · simp [processVideoFile, hvideo, hok, hb]
    · by_cases hstr : (match items.videoStreams with
          | none => true
          | some streams => streams.isEmpty) = true
      · simp [processVideoFile, hvideo, hok, hstr]
      · simp [processVideoFile, hvideo, hok, hstr, hb]
  | some v =>
    have hne := hskip v hvideo
    have hbeq : (v.lastWriteTime == env.lastWriteTime) = false := by
      simp [hne]
    rcases hbad with hb | hb
    · simp [processVideoFile, hvideo, hok, hbeq, hb]
    · by_cases hstr : (match items.videoStreams with
          | none => true
          | some streams => streams.isEmpty) = true
      · simp [processVideoFile, hvideo, hok, hbeq, hstr]
      · simp [processVideoFile, hvideo, hok, hbeq, hstr, hb]

/-- An extracted bag with a video stream but a NEGATIVE duration. -/
def negDurItems : Items :=
  { title := none, artist := none, musicBrainzArtistID := none, album := none
    musicBrainzAlbumID := none, genres := none, trackNumber := none
    discNumber := none, date := none, originalDate := none
    duration := some (-5), audioStreams := none, videoStreams := some [0]
    hasCover := none }

/-- C7 counterexample: a video file whose extraction yields a stream but
duration −5 seconds — non-positive, so the claim demands disqualification
with nothing written (no row exists here) — yet `processVideoFile`
compares `total_seconds() == 0`, does NOT disqualify, and writes a new
row (one addition counted). -/
theorem c7_counterexample :
    negDurItems.videoStreams = some [0]
      ∧ negDurItems.duration = some (-5)
      ∧ ((-5 : Int) ≤ 0) = True
      ∧ Video.getByPath emptySession cPath = none
      ∧ processVideoFile
          { lastWriteTime := 7, parseResult := Except.ok negDurItems }
          cPath emptySession ⟨0, 0, 0⟩
        ≠ (emptySession, ⟨0, 0, 0⟩)
      ∧ (processVideoFile
          { lastWriteTime := 7, parseResult := Except.ok negDurItems }
          cPath emptySession ⟨0, 0, 0⟩).2.nbAdded = 1 := by
  refine ⟨rfl, rfl, by simp, by decide, by decide, by decide⟩

/-- C7 (amended): a file whose extraction yields no matching stream — or,
for audio, a duration ≤ 0, for video a duration equal to 0 — is
disqualified, not an error: an existing row for the path is deleted with
`Stats.nbRemoved` incremented by exactly 1 and processing stops; with no
existing row nothing is written.  (A video with a negative extracted
duration is NOT disqualified.) -/
theorem c7_disqualification_amended (envA : AudioEnv) (envV : VideoEnv)
    (fileA fileV : Path) (sA sV : Session) (statsA statsV : Stats)
    (itemsA itemsV : Items)
    (hokA : envA.parseResult = Except.ok itemsA)
    (hokV : envV.parseResult = Except.ok itemsV)
    (hskipA : ∀ t, Track.getByPath sA fileA = some t →
      t.lastWriteTime ≠ envA.lastWriteTime)
    (hskipV : ∀ v, Video.getByPath sV fileV = some v →
      v.lastWriteTime ≠ envV.lastWriteTime)
    (hbadA : (match itemsA.audioStreams with
              | none => true
              | some streams => streams.isEmpty) = true
        ∨ (match itemsA.duration with
           | none => true
           | some d => decide (d ≤ 0)) = true)
    (hbadV : (match itemsV.videoStreams with
              | none => true
              | some streams => streams.isEmpty) = true
        ∨ (match itemsV.duration with
           | none => true
           | some d => d == 0) = true) :
    processAudioFile envA fileA sA statsA
        = (match Track.getByPath sA fileA with
           | some _ => (removeTrack sA fileA,
               { statsA with nbRemoved := statsA.nbRemoved + 1 })
           | none => (sA, statsA))
      ∧ processVideoFile envV fileV sV statsV
        = (match Video.getByPath sV fileV with
           | some _ => (removeVideo sV fileV,
               { statsV with nbRemoved := statsV.nbRemoved + 1 })
           | none => (sV, statsV)) :=
  ⟨processAudioFile_disqualify envA fileA sA statsA itemsA hokA hskipA hbadA,
    processVideoFile_disqualify envV fileV sV statsV itemsV hokV hskipV hbadV⟩

/-- An extracted bag with no audio stream at all. -/
def noStreamItems : Items :=
  { title := none, artist := none, musicBrainzArtistID := none, album := none
    musicBrainzAlbumID := none, genres := none, trackNumber := none
    discNumber := none, date := none, originalDate := none
    duration := some 100, audioStreams := none, videoStreams := none
    hasCover := none }

/-- C7 witness: an existing track at `cPath` (mtime 5) re-scanned at mtime 6
with no audio stream in the bag is deleted and counted once removed; a
streamless video file with no existing row writes nothing. -/
theorem c7_disqualification_amended_witness :
    processAudioFile
        { lastWriteTime := 6, externalCovers := [], parseResult := Except.ok noStreamItems }
        cPath wSession ⟨0, 0, 0⟩
      = (removeTrack wSession cPath, ⟨0, 0, 1⟩)
    ∧ processVideoFile
        { lastWriteTime := 6, parseResult := Except.ok noStreamItems }
        cPath emptySession ⟨0, 0, 0⟩
      = (emptySession, ⟨0, 0, 0⟩) := by
  have h := c7_disqualification_amended
    { lastWriteTime := 6, externalCovers := [], parseResult := Except.ok noStreamItems }
    { lastWriteTime := 6, parseResult := Except.ok noStreamItems }
    cPath cPath wSession emptySession ⟨0, 0, 0⟩ ⟨0, 0, 0⟩
    noStreamItems noStreamItems rfl rfl
    (by
      intro t ht
      have hw : Track.getByPath wSession cPath = some wTrack := by decide
      rw [hw] at ht
      cases ht
      decide)
    (by
      intro v hv
      have hw : Video.getByPath emptySession cPath = none := by decide
      rw [hw] at hv
      cases hv)
    (Or.inl rfl) (Or.inl rfl)
  refine ⟨?_, ?_⟩
  · rw [h.1]; decide
  · rw [h.2]; decide

/-!  C8: cover state of the written row. -/

theorem applyCover_path (hasCover? : Option Bool) (covers : List Path)
    (t : Track) : (applyCover hasCover? covers t).path = t.path := by
  cases hasCover? with
  | none => rfl
  | some b =>
    unfold applyCover
    cases b <;> split_ifs <;> rfl

theorem applyCover_coverType (hasCover? : Option Bool) (covers : List Path)
    (t : Track) :
    (applyCover hasCover? covers t).coverType
      = match hasCover? with
        | some true => CoverType.embedded
        | some false =>
          if covers.isEmpty then CoverType.noCover else CoverType.externalFile
        | none => t.coverType := by
  cases hasCover? with
  | none => rfl
  | some b =>
    unfold applyCover
    cases b
    · by_cases hc : covers.isEmpty = true <;> simp [hc]
    · rfl

theorem buildTrackCore_path (items : Items) (lwt : Nat) (title : List Char)
    (genres : List (List Char)) (artist : Artist) (release : Release)
    (t0 : Track) :
    (buildTrackCore items lwt title genres artist release t0).path = t0.path := by
  obtain ⟨ti, ar, ma, al, mal, ge, tn, dn, dt, od, du, as1, vs, hc⟩ := items
  unfold buildTrackCore
  cases tn <;> cases dn <;> cases dt <;> cases od <;> rfl

theorem buildTrackCore_coverType (items : Items) (lwt : Nat) (title : List Char)
    (genres : List (List Char)) (artist : Artist) (release : Release)
    (t0 : Track) :
    (buildTrackCore items lwt title genres artist release t0).coverType
      = t0.coverType := by
  obtain ⟨ti, ar, ma, al, mal, ge, tn, dn, dt, od, du, as1, vs, hc⟩ := items
  unfold buildTrackCore
  cases tn <;> cases dn <;> cases dt <;> cases od <;> rfl

theorem find?_map_put (l : List Track) (file : Path) (t6 : Track)
    (h6 : (t6.path == file) = true)
    (hs : (l.find? (fun u => u.path == file)).isSome = true) :
    (l.map (fun u => if u.path == file then t6 else u)).find?
        (fun u => u.path == file) = some t6 := by
  induction l with
  | nil => simp at hs
  | cons a l ih =>
    by_cases ha : (a.path == file) = true
    · rw [List.map_cons, if_pos ha]
      exact List.find?_cons_of_pos _ h6
    · rw [List.map_cons, if_neg ha, List.find?_cons_of_neg _ (by simp [ha])]
      apply ih
      rw [List.find?_cons_of_neg _ (by simp [ha])] at hs
      exact hs

theorem getByPath_putTrack (s : Session) (file : Path) (t6 : Track)
    (h6 : (t6.path == file) = true) :
    Track.getByPath (putTrack s file t6) file = some t6 := by
  unfold putTrack Track.getByPath
  cases hf : s.tracks.find? (fun u => u.path == file) with
  | some u =>
    simp only
    exact find?_map_put _ _ _ h6 (by rw [hf]; rfl)
  | none =>
    simp only
    rw [find?_append_of_none _ _ _ hf]
    simp [h6]

/-- A bag with a valid audio stream and duration but NO `HasCover`
attribute at all. -/
def absentCoverItems : Items :=
  { title := none, artist := none, musicBrainzArtistID := none, album := none
    musicBrainzAlbumID := none, genres := none, trackNumber := none
    discNumber := none, date := none, originalDate := none
    duration := some 100, audioStreams := some [0], videoStreams := none
    hasCover := none }

/-- The environment for the C8 counterexample: mtime changed (6 ≠ 5),
external cover images present, extractor silent about embedded covers. -/
def absentCoverEnv : AudioEnv :=
  { lastWriteTime := 6
    externalCovers := [("/data/music/cover.jpg").toList]
    parseResult := Except.ok absentCoverItems }

/-- C8 counterexample: the row-write step executes (the row is counted
modified), the extractor does not report an embedded cover and external
covers were found, so by the claim the written cover state must be
`ExternalFile`; but the code only assigns a cover state when the
`HasCover` attribute is present, so the row keeps its old `Embedded`
state. -/
theorem c8_counterexample :
    absentCoverItems.hasCover = none
      ∧ absentCoverEnv.externalCovers ≠ []
      ∧ (processAudioFile absentCoverEnv cPath wSession ⟨0, 0, 0⟩).2.nbModified = 1
      ∧ (match Track.getByPath
            (processAudioFile absentCoverEnv cPath wSession ⟨0, 0, 0⟩).1 cPath with
         | some t => t.coverType
         | none => CoverType.noCover) = CoverType.embedded
      ∧ CoverType.embedded ≠ CoverType.externalFile := by
  refine ⟨rfl, by decide, by decide, by decide, by decide⟩

/-- C8 (amended): on every audio file whose row-write step executes, when
the extractor reports the cover attribute the written row's state is
`Embedded` if an embedded cover is reported, else `ExternalFile` when
external cover images were found in the file's directory, else `None`;
when the extractor does not report the attribute at all, the written row
keeps the previous state (the existing row's state, or the fresh row's
default `None`). -/
theorem c8_cover_state_amended (env : AudioEnv) (file : Path) (s : Session)
    (stats : Stats) (items : Items) (streams : List Nat) (d : Int)
    (hok : env.parseResult = Except.ok items)
    (hls : items.audioStreams = some streams) (hlsne : streams ≠ [])
    (hd : items.duration = some d) (hdpos : 0 < d)
    (hskip : ∀ t, Track.getByPath s file = some t →
      t.lastWriteTime ≠ env.lastWriteTime) :
    ∃ t', Track.getByPath (processAudioFile env file s stats).1 file = some t'
      ∧ t'.coverType
          = match items.hasCover with
            | some true => CoverType.embedded
            | some false =>
              if env.externalCovers.isEmpty then CoverType.noCover
              else CoverType.externalFile
            | none =>
              match Track.getByPath s file with
              | some t => t.coverType
              | none => CoverType.noCover := by
  have hstr : (match items.audioStreams with
      | none => true
      | some streams => streams.isEmpty) = false := by
    rw [hls]
    cases streams with
    | nil => exact absurd rfl hlsne
    | cons a l => rfl
  have hdur : (match items.duration with
      | none => true
      | some dd => decide (dd ≤ 0)) = false := by
    rw [hd]
    simp only [decide_eq_false_iff_not]
    omega
  cases htrack : Track.getByPath s file with
  | none =>
    simp only [processAudioFile, htrack, hok, hstr, hdur, Bool.false_eq_true,
      if_false]
    refine ⟨_, getByPath_putTrack _ file _ ?_, ?_⟩
    · rw [applyCover_path, buildTrackCore_path]
      simp [Track.createRow]
    · rw [applyCover_coverType, buildTrackCore_coverType]
      cases items.hasCover with
      | none => simp [Track.createRow]
      | some b => cases b <;> rfl
  | some t =>
    have hne := hskip t htrack
    have hbeq : (t.lastWriteTime == env.lastWriteTime) = false := by
      simp [hne]
    have hpathT : (t.path == file) = true := by
      have h := htrack
      unfold Track.getByPath at h
      have h2 := List.find?_some h
      simpa using h2
    simp only [processAudioFile, htrack, hok, hstr, hdur, hbeq,
      Bool.false_and, Bool.false_eq_true, if_false]
    refine ⟨_, getByPath_putTrack _ file _ ?_, ?_⟩
    · rw [applyCover_path, buildTrackCore_path]
      exact hpathT
    · rw [applyCover_coverType, buildTrackCore_coverType]

/-- A bag reporting `HasCover = false` with a valid stream and duration. -/
def falseCoverItems : Items :=
  { absentCoverItems with hasCover := some false }

/-- C8 witness: re-scanning the embedded-cover row at a changed mtime with
`HasCover = false` and an external cover present stores `ExternalFile`. -/
theorem c8_cover_state_amended_witness :
    ∃ t', Track.getByPath
        (processAudioFile
          { absentCoverEnv with parseResult := Except.ok falseCoverItems }
          cPath wSession ⟨0, 0, 0⟩).1 cPath = some t'
      ∧ t'.coverType = CoverType.externalFile := by
  have h := c8_cover_state_amended
    { absentCoverEnv with parseResult := Except.ok falseCoverItems }
    cPath wSession ⟨0, 0, 0⟩ falseCoverItems [0] 100 rfl rfl
    (by decide) rfl (by decide)
    (by
      intro t ht
      have hw : Track.getByPath wSession cPath = some wTrack := by decide
      rw [hw] at ht
      cases ht
      decide)
  obtain ⟨t', h1, h2⟩ := h
  exact ⟨t', h1, by rw [h2]; decide⟩

end LmsUpdater
